import Mathlib

/-!
Shallow embedding of the benchutil rendering engine (src/benchutil.go).

Strings are modelled as lists of characters (`Str`); Go machine integers
(`int64`, `int`, both 64-bit here) are modelled as `Int` with an explicit
wrap-around (`wrap64`) applied exactly where Go arithmetic can overflow.
Column widths and padding counts are modelled as `Nat`: in every reachable
state they are string lengths or sums of string lengths, and the Go guards
against negative padding are translated as explicit branches.

Fallible code is modelled with `Option`: `none` stands for a Go runtime
panic (index out of range on an empty `Benchmarks` slice, or an integer
division by zero).  Output sinks are modelled by returning the list of
write units instead of performing I/O.
-/

/-- Character lists standing for Go strings (byte strings; all inputs of
interest are ASCII, where Go `len` agrees with list length). -/
abbrev Str := List Char

/-- Decimal digit character, `digChar d` is the character for digit `d`. -/
def digChar (d : Nat) : Char := Char.ofNat (48 + d)

/-- Fuel-driven accumulator loop producing the decimal digits of `n` in
front of `acc`, most significant digit first.  Structural recursion on the
fuel keeps the definition kernel-reducible. -/
def natDigitsCore : Nat → Nat → List Char → List Char
  | 0, _, acc => acc
  | fuel + 1, n, acc =>
      if n < 10 then digChar n :: acc
      else natDigitsCore fuel (n / 10) (digChar (n % 10) :: acc)

/-- Decimal representation of a natural number, e.g. `natRepr 42 = "42"`. -/
def natRepr (n : Nat) : Str := natDigitsCore (n + 1) n []

/-- Decimal representation of an integer, as produced by Go `%d` /
`strconv.Itoa`. -/
def intRepr (i : Int) : Str :=
  if i < 0 then '-' :: natRepr (-i).toNat else natRepr i.toNat

/-- Two's-complement wrap-around to the `int64` range, applied where Go
64-bit arithmetic can overflow. -/
def wrap64 (x : Int) : Int := (x + 2 ^ 63) % 2 ^ 64 - 2 ^ 63

/-- Column header texts (src/benchutil.go `header`). -/
structure header where
  Group    : Str
  SubGroup : Str
  Name     : Str
  Desc     : Str
  Ops      : Str
  NsOp     : Str
  BytesOp  : Str
  AllocsOp : Str
  Note     : Str
deriving DecidableEq, Repr

/-- Default column headers (src/benchutil.go `newHeader`). -/
def newHeader : header :=
  { Group := "Group".data
    SubGroup := "Sub-Group".data
    Name := "Name".data
    Desc := "Desc".data
    Ops := "Ops".data
    NsOp := "ns/Op".data
    BytesOp := "B/Op".data
    AllocsOp := "Allocs/Op".data
    Note := "Note".data }

/-- Computed column widths (src/benchutil.go `length`).  Go uses `int`;
all reachable values are string lengths or sums thereof, hence `Nat`. -/
@[ext]
structure length where
  Group    : Nat
  SubGroup : Nat
  Name     : Nat
  Desc     : Nat
  Ops      : Nat
  NsOp     : Nat
  BytesOp  : Nat
  AllocsOp : Nat
  Note     : Nat
deriving DecidableEq, Repr

/-- Numeric results of one benchmark (src/benchutil.go `Result`); the
four fields are Go `int64` values. -/
structure Result where
  Ops      : Int
  NsOp     : Int
  BytesOp  : Int
  AllocsOp : Int
deriving DecidableEq, Repr

/-- One benchmark record (src/benchutil.go `Bench`).  Go embeds `Result`;
here it is the explicit field `result`. -/
structure Bench where
  Group      : Str
  SubGroup   : Str
  Name       : Str
  Desc       : Str
  Note       : Str
  Iterations : Int
  result     : Result
deriving DecidableEq, Repr

/-- `NewBench` (src/benchutil.go): fresh record with the given name and
the default of one iteration; all other fields are Go zero values. -/
def NewBench (s : Str) : Bench :=
  { Group := [], SubGroup := [], Name := s, Desc := [], Note := []
    Iterations := 1
    result := { Ops := 0, NsOp := 0, BytesOp := 0, AllocsOp := 0 } }

/-- The shared collection and configuration state (src/benchutil.go
`Benches`).  The two system-info booleans are carried for completeness but
never read by the layout logic modelled here. -/
@[ext]
structure Benches where
  Name                      : Str
  Desc                      : Str
  Note                      : Str
  Benchmarks                : List Bench
  header                    : header
  columnPadding             : Nat
  includeOpsColumnDesc      : Bool
  includeSystemInfo         : Bool
  includeDetailedSystemInfo : Bool
  sectionPerGroup           : Bool
  sectionHeaders            : Bool
  nameSections              : Bool
  length                    : length
deriving DecidableEq, Repr

/-- `Benches.Append` (src/benchutil.go): appends records, order-preserving,
with no validation.  The Go variadic parameter is a list here. -/
def Benches.Append (b : Benches) (benches : List Bench) : Benches :=
  { b with Benchmarks := b.Benchmarks ++ benches }

/-- Per-record column widths: the contribution of one record to the nine
width maxima taken in the loop body of `Benches.setLength`
(src/benchutil.go lines 314-348).  The operations width is taken from
`strconv.Itoa(int(v.Result.Ops)*v.Iterations)`, whose multiplication is
64-bit and may wrap. -/
def benchLen (v : Bench) : length :=
  { Group := v.Group.length
    SubGroup := v.SubGroup.length
    Name := v.Name.length
    Desc := v.Desc.length
    Ops := (intRepr (wrap64 (v.result.Ops * v.Iterations))).length
    NsOp := (intRepr v.result.NsOp).length
    BytesOp := (intRepr v.result.BytesOp).length
    AllocsOp := (intRepr v.result.AllocsOp).length
    Note := v.Note.length }

/-- Componentwise maximum of two width records; each `if new > cur` update
in the `setLength` loop is exactly a maximum. -/
def lmax (a b : length) : length :=
  { Group := max a.Group b.Group
    SubGroup := max a.SubGroup b.SubGroup
    Name := max a.Name b.Name
    Desc := max a.Desc b.Desc
    Ops := max a.Ops b.Ops
    NsOp := max a.NsOp b.NsOp
    BytesOp := max a.BytesOp b.BytesOp
    AllocsOp := max a.AllocsOp b.AllocsOp
    Note := max a.Note b.Note }

/-- The record-scanning loop of `setLength`: fold of the componentwise
maxima over the benchmark list, starting from the current widths.  (The Go
loop also tracks a local `maxIters` value that is never read afterwards;
that dead computation is omitted.) -/
def setLenFold (l : length) (bs : List Bench) : length :=
  bs.foldl (fun acc v => lmax acc (benchLen v)) l

/-- The descriptor-suffix width bump (src/benchutil.go lines 350-354):
when `includeOpsColumnDesc` is set, the three per-op widths grow by the
lengths of the literal suffixes. -/
def descBump (flag : Bool) (l : length) : length :=
  if flag then
    { l with NsOp := l.NsOp + 6, BytesOp := l.BytesOp + 9, AllocsOp := l.AllocsOp + 10 }
  else l

/-- Header reconciliation for a textual column (src/benchutil.go lines
356-370): the width is raised to the header length only when the column
already participates (width positive). -/
def fixText (hl x : Nat) : Nat := if 0 < x ∧ x < hl then hl else x

/-- Header reconciliation step of `setLength` (src/benchutil.go lines
356-382): textual columns via `fixText`, numeric columns unconditionally
raised to the header length. -/
def hdrFix (h : header) (l : length) : length :=
  { Group := fixText h.Group.length l.Group
    SubGroup := fixText h.SubGroup.length l.SubGroup
    Name := fixText h.Name.length l.Name
    Desc := fixText h.Desc.length l.Desc
    Ops := max l.Ops h.Ops.length
    NsOp := max l.NsOp h.NsOp.length
    BytesOp := max l.BytesOp h.BytesOp.length
    AllocsOp := max l.AllocsOp h.AllocsOp.length
    Note := fixText h.Note.length l.Note }

/-- `Benches.setLength` (src/benchutil.go lines 310-383): scan the records
for maxima starting from the current widths, apply the descriptor bump,
then reconcile against the header lengths.  Go mutates `b.length`; here
the updated value is returned. -/
def Benches.setLength (b : Benches) : Benches :=
  { b with length := hdrFix b.header (descBump b.includeOpsColumnDesc (setLenFold b.length b.Benchmarks)) }

/-- `Benches.OpsString` (src/benchutil.go lines 387-392): the operations
cell, `v.Ops * int64(v.Iterations)` (64-bit product), with the `" ops"`
suffix when descriptors are enabled. -/
def Benches.OpsString (b : Benches) (v : Bench) : Str :=
  if b.includeOpsColumnDesc then
    intRepr (wrap64 (v.result.Ops * v.Iterations)) ++ " ops".data
  else
    intRepr (wrap64 (v.result.Ops * v.Iterations))

/-- `Benches.perOpsString` (src/benchutil.go lines 422-427): `"0"` when
the stored value is zero, otherwise `v / int64(it)`.  `none` models the Go
runtime panic on division by zero; the quotient is wrapped because Go
defines `MinInt64 / -1` to wrap. -/
def Benches.perOpsString (_b : Benches) (v it : Int) : Option Str :=
  if v = 0 then some ("0".data)
  else if it = 0 then none
  else some (intRepr (wrap64 (v.tdiv it)))

/-- `Benches.NsOpString` (src/benchutil.go lines 396-401). -/
def Benches.NsOpString (b : Benches) (v : Bench) : Option Str := do
  let s ← b.perOpsString v.result.NsOp v.Iterations
  pure (if b.includeOpsColumnDesc then s ++ " ns/op".data else s)

/-- `Benches.BytesOpString` (src/benchutil.go lines 405-410). -/
def Benches.BytesOpString (b : Benches) (v : Bench) : Option Str := do
  let s ← b.perOpsString v.result.BytesOp v.Iterations
  pure (if b.includeOpsColumnDesc then s ++ " bytes/op".data else s)

/-- `Benches.AllocsOpString` (src/benchutil.go lines 413-418). -/
def Benches.AllocsOpString (b : Benches) (v : Bench) : Option Str := do
  let s ← b.perOpsString v.result.AllocsOp v.Iterations
  pure (if b.includeOpsColumnDesc then s ++ " allocs/op".data else s)

/-- `Benches.columnR` (src/benchutil.go lines 430-444): right-justified
cell, `w - len(s)` leading spaces (clamped at zero, which is `Nat`
subtraction) and `columnPadding` trailing spaces. -/
def Benches.columnR (b : Benches) (w : Nat) (s : Str) : Str :=
  List.replicate (w - s.length) ' ' ++ s ++ List.replicate b.columnPadding ' '

/-- `Benches.columnL` (src/benchutil.go lines 447-457): left-justified
cell; Go computes `pad = w + columnPadding - len(s)` and falls back to
`columnPadding` when that is negative. -/
def Benches.columnL (b : Benches) (w : Nat) (s : Str) : Str :=
  let pad := if w + b.columnPadding < s.length then b.columnPadding else w + b.columnPadding - s.length
  s ++ List.replicate pad ' '

/-- `Benches.resultCSV` (src/benchutil.go lines 460-462): the four numeric
CSV cells of one record.  Go passes an index into `Benchmarks`; the record
it denotes is passed directly. -/
def Benches.resultCSV (b : Benches) (v : Bench) : Option (List Str) := do
  let ns ← b.NsOpString v
  let bo ← b.BytesOpString v
  let al ← b.AllocsOpString v
  pure [b.OpsString v, ns, bo, al]

/-- `Benches.csv` (src/benchutil.go lines 465-484): the full CSV record of
one benchmark, textual columns present only when their width is
positive. -/
def Benches.csv (b : Benches) (v : Bench) : Option (List Str) := do
  let r ← b.resultCSV v
  pure ((if 0 < b.length.Group then [v.Group] else [])
    ++ (if 0 < b.length.SubGroup then [v.SubGroup] else [])
    ++ (if 0 < b.length.Name then [v.Name] else [])
    ++ (if 0 < b.length.Desc then [v.Desc] else [])
    ++ r
    ++ (if 0 < b.length.Note then [v.Note] else []))

/-- `StringBench.WriteHeader` (src/benchutil.go lines 544-566): the text
header line.  `StringBench` embeds `Benches` and a writer; the writer is
modelled by returning the line. -/
def StringBench.WriteHeader (b : Benches) : Str :=
  (if 0 < b.length.Group then b.columnL b.length.Group b.header.Group else [])
  ++ (if 0 < b.length.SubGroup then b.columnL b.length.SubGroup b.header.SubGroup else [])
  ++ (if 0 < b.length.Name then b.columnL b.length.Name b.header.Name else [])
  ++ (if 0 < b.length.Desc then b.columnL b.length.Desc b.header.Desc else [])
  ++ b.columnL b.length.Ops b.header.Ops
  ++ b.columnL b.length.NsOp b.header.NsOp
  ++ b.columnL b.length.BytesOp b.header.BytesOp
  ++ b.columnL b.length.AllocsOp b.header.AllocsOp
  ++ (if 0 < b.length.Note then b.header.Note else [])

/-- `StringBench.WriteSeparatorLine` (src/benchutil.go lines 569-594):
a run of dashes covering every participating column plus padding. -/
def StringBench.WriteSeparatorLine (b : Benches) : Str :=
  List.replicate
    ((if 0 < b.length.Group then b.length.Group + b.columnPadding else 0)
      + (if 0 < b.length.SubGroup then b.length.SubGroup + b.columnPadding else 0)
      + (if 0 < b.length.Name then b.length.Name + b.columnPadding else 0)
      + (if 0 < b.length.Desc then b.length.Desc + b.columnPadding else 0)
      + (b.length.Ops + b.columnPadding)
      + (b.length.NsOp + b.columnPadding)
      + (b.length.BytesOp + b.columnPadding)
      + (b.length.AllocsOp + b.columnPadding)
      + b.length.Note) '-'

/-- `StringBench.BenchString` (src/benchutil.go lines 629-631): the four
right-justified numeric cells of one record.  Go passes an index into
`Benchmarks`; the record it denotes is passed directly. -/
def StringBench.BenchString (b : Benches) (v : Bench) : Option Str := do
  let ns ← b.NsOpString v
  let bo ← b.BytesOpString v
  let al ← b.AllocsOpString v
  pure (b.columnR b.length.Ops (b.OpsString v)
    ++ b.columnR b.length.NsOp ns
    ++ b.columnR b.length.BytesOp bo
    ++ b.columnR b.length.AllocsOp al)

/-- One iteration of the `WriteResults` loop (src/benchutil.go lines
600-624): the string written for one record, including the leading
newline on a group boundary.  Note that the Go code appends `b.Note`, the
collection-level note, not the record note `v.Note`. -/
def StringBench.resultLine (b : Benches) (prior : Str) (v : Bench) : Option Str := do
  let bs ← StringBench.BenchString b v
  pure ((if b.sectionPerGroup ∧ v.Group ≠ prior then ['\n'] else [])
    ++ (if 0 < b.length.Group then b.columnL b.length.Group v.Group else [])
    ++ (if 0 < b.length.SubGroup then b.columnL b.length.SubGroup v.SubGroup else [])
    ++ (if 0 < b.length.Name then b.columnL b.length.Name v.Name else [])
    ++ (if 0 < b.length.Desc then b.columnL b.length.Desc v.Desc else [])
    ++ bs
    ++ (if 0 < b.length.Note then b.Note else []))

/-- The `WriteResults` loop with the running `priorGroup` cursor. -/
def StringBench.writeResultsAux (b : Benches) : Str → List Bench → Option (List Str)
  | _, [] => some []
  | prior, v :: rest => do
      let line ← StringBench.resultLine b prior v
      let rest' ← StringBench.writeResultsAux b v.Group rest
      pure (line :: rest')

/-- `StringBench.WriteResults` (src/benchutil.go lines 597-625): one
written line per record.  `none` models the index-out-of-range panic of
`b.Benchmarks[0]` on an empty record set. -/
def StringBench.WriteResults (b : Benches) : Option (List Str) :=
  match b.Benchmarks with
  | [] => none
  | v0 :: _ => StringBench.writeResultsAux b v0.Group b.Benchmarks

/-- `StringBench.Out` (src/benchutil.go lines 503-541): the full sequence
of written lines.  The system-info branches delegate to an external
collaborator and are omitted (both flags false in every state considered
here).  The Go code prints `b.Name` again when `b.Desc` is non-empty,
both before and after the table; that slip is reproduced faithfully. -/
def StringBench.Out (b : Benches) : Option (List Str) := do
  let b' := b.setLength
  let rows ← StringBench.WriteResults b'
  pure ((if 0 < b'.Name.length then [b'.Name] else [])
    ++ (if 0 < b'.Desc.length then [b'.Name] else [])
    ++ [StringBench.WriteHeader b', StringBench.WriteSeparatorLine b']
    ++ rows
    ++ (if 0 < b'.Desc.length then [b'.Name] else []))

/-- The CSV header record (src/benchutil.go lines 910-926): fixed labels,
textual columns present only when participating. -/
def csvHdr (b : Benches) : List Str :=
  (if 0 < b.length.Group then ["Group".data] else [])
  ++ (if 0 < b.length.SubGroup then ["SubGroup".data] else [])
  ++ (if 0 < b.length.Name then ["Name".data] else [])
  ++ (if 0 < b.length.Desc then ["Description".data] else [])
  ++ ["Operations".data, "Ns/Op".data, "Bytes/Op".data, "Allocs/Op".data]
  ++ (if 0 < b.length.Note then ["Note".data] else [])

/-- The record loop of `csvOut` (src/benchutil.go lines 938-956): on a
group boundary (with `sectionPerGroup`) one empty record is written, then
the header again when `sectionHeaders`, then the data record. -/
def csvOutAux (b : Benches) (hdr empty : List Str) : Str → List Bench → Option (List (List Str))
  | _, [] => some []
  | prior, v :: rest => do
      let row ← b.csv v
      let rest' ← csvOutAux b hdr empty v.Group rest
      pure ((if v.Group ≠ prior ∧ b.sectionPerGroup then
              [empty] ++ (if b.sectionHeaders then [hdr] else [])
            else []) ++ row :: rest')

/-- `csvOut` (src/benchutil.go lines 907-958): the list of CSV records
written.  `none` models the index-out-of-range panic on
`benches.Benchmarks[0]` for an empty record set (the Go code has already
written the header record when it panics). -/
def csvOut (b : Benches) : Option (List (List Str)) :=
  let b' := b.setLength
  let hdr := csvHdr b'
  match b'.Benchmarks with
  | [] => none
  | v0 :: _ => do
      let rows ← csvOutAux b' hdr (List.replicate hdr.length []) v0.Group b'.Benchmarks
      pure (hdr :: rows)

/-- `MDBench` (src/benchutil.go lines 659-664): Markdown renderer state;
Go embeds `Benches`. -/
structure MDBench extends Benches where
  GroupAsSectionName : Bool
  SectionHeaderHash  : Str
deriving DecidableEq, Repr

/-- The alignment / header-label construction of `MDBench.Out`
(src/benchutil.go lines 701-725): the pair `(align, hdr)` handed to the
CSV-to-Markdown transform.  The group column is added only when it
participates and none of `sectionPerGroup`, `sectionHeaders`,
`GroupAsSectionName` is set. -/
def MDBench.hdrAlign (m : MDBench) : List Str × List Str :=
  let b := m.toBenches
  let gcol := 0 < b.length.Group ∧ ¬b.sectionPerGroup ∧ ¬b.sectionHeaders ∧ ¬m.GroupAsSectionName
  ((if gcol then ["l".data] else [])
    ++ (if 0 < b.length.SubGroup then ["l".data] else [])
    ++ (if 0 < b.length.Name then ["l".data] else [])
    ++ (if 0 < b.length.Desc then ["l".data] else [])
    ++ ["r".data, "r".data, "r".data, "r".data]
    ++ (if 0 < b.length.Note then ["l".data] else []),
   (if gcol then [b.header.Group] else [])
    ++ (if 0 < b.length.SubGroup then [b.header.SubGroup] else [])
    ++ (if 0 < b.length.Name then [b.header.Name] else [])
    ++ (if 0 < b.length.Desc then [b.header.Desc] else [])
    ++ [b.header.Ops, b.header.NsOp, b.header.BytesOp, b.header.AllocsOp]
    ++ (if 0 < b.length.Note then [b.header.Note] else []))

/-- `MDBench.SectionName` (src/benchutil.go lines 788-801): the optional
section-title write; `none` when the title is not written (the Go
function then returns a nil error having written nothing). -/
def MDBench.SectionName (m : MDBench) (s : Str) : Option Str :=
  if ¬m.GroupAsSectionName ∨ ¬m.toBenches.sectionPerGroup ∨ ¬m.toBenches.sectionHeaders then none
  else some (m.SectionHeaderHash ++ s ++ "  \n".data)

/-- The record loop of `MDBench.Out` (src/benchutil.go lines 741-780),
returning the rows accumulated into the current CSV buffer before the
next boundary, and the finished later tables, each as an optional section
title plus its buffered rows. -/
def MDBench.OutAux (m : MDBench) (empty0 : List Str) :
    Str → List Bench → Option (List (List Str) × List (Option Str × List (List Str)))
  | _, [] => some ([], [])
  | prior, v :: rest => do
      let line0 ← m.toBenches.csv v
      let line := if m.toBenches.sectionPerGroup ∧ m.toBenches.sectionHeaders ∧ m.GroupAsSectionName
        then line0.drop 1 else line0
      if v.Group ≠ prior ∧ m.toBenches.sectionPerGroup then
        let pre : List (List Str) :=
          if ¬m.toBenches.sectionHeaders then
            [if m.GroupAsSectionName then prior :: empty0.drop 1 else empty0]
          else []
        let res ← MDBench.OutAux m empty0 v.Group rest
        pure (pre, (m.SectionName v.Group, line :: res.1) :: res.2)
      else
        let res ← MDBench.OutAux m empty0 v.Group rest
        pure (line :: res.1, res.2)

/-- `MDBench.Out` (src/benchutil.go lines 678-783): the table description
`(align, hdr)` and the sequence of flushed tables, each an optional
section title and its CSV rows.  `none` models the index-out-of-range
panic on `b.Benchmarks[0]` for an empty record set. -/
def MDBench.Out (m : MDBench) : Option (List Str × List Str × List (Option Str × List (List Str))) :=
  let m' : MDBench := { m with toBenches := m.toBenches.setLength }
  let hdrA := MDBench.hdrAlign m'
  match m'.toBenches.Benchmarks with
  | [] => none
  | v0 :: _ => do
      let res ← MDBench.OutAux m' (List.replicate hdrA.2.length []) v0.Group m'.toBenches.Benchmarks
      pure (hdrA.1, hdrA.2, (m'.SectionName v0.Group, res.1) :: res.2)

/-- Number of adjacent group transitions relative to a prior cursor. -/
def transitions : Str → List Bench → Nat
  | _, [] => 0
  | prior, v :: rest => (if v.Group ≠ prior then 1 else 0) + transitions v.Group rest

/-- Number of positions where the group value changes between adjacent
records of the sequence. -/
def groupTransitions (bs : List Bench) : Nat :=
  match bs with
  | [] => 0
  | v :: _ => transitions v.Group bs

/-- Count of written lines that begin with a newline character: in the
text output each group boundary prepends exactly one newline, producing
one blank separator line in the byte stream. -/
def countNLHead (ls : List Str) : Nat :=
  ls.countP (fun l => l.head? == some '\n')

/-- A blank CSV record: non-empty list of fields, all of them empty. -/
def isBlankRow (r : List Str) : Bool :=
  !r.isEmpty && r.all List.isEmpty

/-- Count of blank records in a CSV output. -/
def countBlankRows (rows : List (List Str)) : Nat :=
  rows.countP isBlankRow

/-- Count of records equal to the given header record. -/
def countHdrRows (hdr : List Str) (rows : List (List Str)) : Nat :=
  rows.countP (fun r => r == hdr)

/-- A record none of whose leading textual fields starts with a newline
character; under this side condition the newline-headed lines of the text
output are exactly the group boundaries. -/
def noLeadingNL (v : Bench) : Prop :=
  v.Group.head? ≠ some '\n' ∧ v.SubGroup.head? ≠ some '\n'
    ∧ v.Name.head? ≠ some '\n' ∧ v.Desc.head? ≠ some '\n'

instance (v : Bench) : Decidable (noLeadingNL v) := by
  unfold noLeadingNL; infer_instance

/-- Every character of a cell is a minus sign or a decimal digit: the
shape of a bare rendered integer, which in particular contains no space
and hence no unit-suffix text. -/
def numericCell (c : Str) : Bool :=
  c.all (fun ch => ch == '-' || (48 ≤ ch.toNat && ch.toNat ≤ 57))

/-- Componentwise order on width records, used to reason about the
monotone maximum accumulation in `setLength`. -/
def length.le (a b : length) : Prop :=
  a.Group ≤ b.Group ∧ a.SubGroup ≤ b.SubGroup ∧ a.Name ≤ b.Name ∧ a.Desc ≤ b.Desc
    ∧ a.Ops ≤ b.Ops ∧ a.NsOp ≤ b.NsOp ∧ a.BytesOp ≤ b.BytesOp ∧ a.AllocsOp ≤ b.AllocsOp
    ∧ a.Note ≤ b.Note

/-- A fresh renderer state as built by `NewStringBench` / `NewCSVBench` /
`NewMDBench` (src/benchutil.go): default headers, padding 2, all flags
off, zero widths, holding the given records. -/
def mkBenches (bs : List Bench) : Benches :=
  { Name := [], Desc := [], Note := [], Benchmarks := bs
    header := newHeader
    columnPadding := 2
    includeOpsColumnDesc := false
    includeSystemInfo := false
    includeDetailedSystemInfo := false
    sectionPerGroup := false
    sectionHeaders := false
    nameSections := false
    length := { Group := 0, SubGroup := 0, Name := 0, Desc := 0, Ops := 0
                NsOp := 0, BytesOp := 0, AllocsOp := 0, Note := 0 } }

/-- Concrete record in group g1 (the two-record scenario of the spec). -/
def benchA : Bench :=
  { Group := "g1".data, SubGroup := [], Name := "A".data, Desc := [], Note := []
    Iterations := 1
    result := { Ops := 1, NsOp := 100, BytesOp := 10, AllocsOp := 1 } }

/-- Concrete record in group g2 (the two-record scenario of the spec). -/
def benchB : Bench :=
  { Group := "g2".data, SubGroup := [], Name := "B".data, Desc := [], Note := []
    Iterations := 1
    result := { Ops := 2, NsOp := 200, BytesOp := 20, AllocsOp := 2 } }

/-- Concrete record with 1000 operations over 4 iterations. -/
def benchC2 : Bench :=
  { Group := [], SubGroup := [], Name := "X".data, Desc := [], Note := []
    Iterations := 4
    result := { Ops := 1000, NsOp := 500, BytesOp := 10, AllocsOp := 2 } }

/-- Concrete record carrying its own note text. -/
def benchC4 : Bench :=
  { Group := [], SubGroup := [], Name := "N".data, Desc := [], Note := "recnote".data
    Iterations := 1
    result := { Ops := 1, NsOp := 1, BytesOp := 1, AllocsOp := 1 } }

/-- Concrete record whose stored bytes-per-op value is exactly zero. -/
def benchC8 : Bench :=
  { Group := [], SubGroup := [], Name := "Z".data, Desc := [], Note := []
    Iterations := 4
    result := { Ops := 1000, NsOp := 500, BytesOp := 0, AllocsOp := 2 } }

/-- A renderer state holding zero records. -/
def bEmpty : Benches := mkBenches []

/-- A Markdown renderer state holding zero records. -/
def mEmpty : MDBench :=
  { toBenches := bEmpty, GroupAsSectionName := false, SectionHeaderHash := "####".data }

/-- CSV renderer state with unit descriptors enabled. -/
def bC2 : Benches := { mkBenches [benchC2] with includeOpsColumnDesc := true }

/-- CSV renderer state with unit descriptors disabled. -/
def bW2 : Benches := mkBenches [benchC2]

/-- Renderer state with unit descriptors enabled, for the width
recomputation counterexample. -/
def bC3 : Benches := { mkBenches [benchA] with includeOpsColumnDesc := true }

/-- Renderer state with unit descriptors disabled, for the width
idempotence witness. -/
def bW3 : Benches := mkBenches [benchA]

/-- Renderer state whose collection-level note differs from the single
record's own note. -/
def bC4 : Benches := { mkBenches [benchC4] with Note := "SETNOTE".data }

/-- Two-group renderer state with sectioning and section headers on. -/
def bC5 : Benches :=
  { mkBenches [benchA, benchB] with sectionPerGroup := true, sectionHeaders := true }

/-- Two-group renderer state with sectioning on and section headers off. -/
def bT9 : Benches := { mkBenches [benchA, benchB] with sectionPerGroup := true }

/-- Markdown renderer state with sectioning on but `GroupAsSectionName`
off. -/
def mC6 : MDBench :=
  { toBenches := { mkBenches [benchA] with sectionPerGroup := true }
    GroupAsSectionName := false, SectionHeaderHash := "####".data }

theorem digChar_digit {d : Nat} (h : d < 10) :
    48 ≤ (digChar d).toNat ∧ (digChar d).toNat ≤ 57 := by
  interval_cases d <;> exact ⟨by decide, by decide⟩

theorem natDigitsCore_mem :
    ∀ (fuel n : Nat) (acc : List Char) (c : Char), c ∈ natDigitsCore fuel n acc →
      c ∈ acc ∨ (48 ≤ c.toNat ∧ c.toNat ≤ 57) := by
  intro fuel
  induction fuel with
  | zero => intro n acc c hc; exact Or.inl hc
  | succ f ih =>
    intro n acc c hc
    by_cases h : n < 10
    · simp only [natDigitsCore, if_pos h, List.mem_cons] at hc
      rcases hc with h1 | h1
      · exact Or.inr (h1 ▸ digChar_digit h)
      · exact Or.inl h1
    · simp only [natDigitsCore, if_neg h] at hc
      rcases ih _ _ _ hc with h1 | h1
      · rcases List.mem_cons.mp h1 with h2 | h2
        · exact Or.inr (h2 ▸ digChar_digit (Nat.mod_lt _ (by omega)))
        · exact Or.inl h2
      · exact Or.inr h1

theorem natDigitsCore_length :
    ∀ (fuel n : Nat) (acc : List Char), acc.length ≤ (natDigitsCore fuel n acc).length := by
  intro fuel
  induction fuel with
  | zero => intro n acc; simp [natDigitsCore]
  | succ f ih =>
    intro n acc
    by_cases h : n < 10
    · simp [natDigitsCore, if_pos h]
    · simp only [natDigitsCore, if_neg h]
      calc acc.length ≤ (digChar (n % 10) :: acc).length := by simp
        _ ≤ _ := ih _ _

theorem natRepr_ne_nil (n : Nat) : natRepr n ≠ [] := by
  unfold natRepr
  by_cases h : n < 10
  · simp [natDigitsCore, if_pos h]
  · simp only [natDigitsCore, if_neg h]
    intro hcon
    have hlen := natDigitsCore_length n (n / 10) [digChar (n % 10)]
    rw [hcon] at hlen
    simp at hlen

theorem natRepr_mem {n : Nat} {c : Char} (h : c ∈ natRepr n) :
    48 ≤ c.toNat ∧ c.toNat ≤ 57 := by
  rcases natDigitsCore_mem _ _ _ _ h with h1 | h1
  · simp at h1
  · exact h1

theorem intRepr_ne_nil (i : Int) : intRepr i ≠ [] := by
  unfold intRepr
  split
  · simp
  · exact natRepr_ne_nil _

theorem intRepr_mem {i : Int} {c : Char} (h : c ∈ intRepr i) :
    c = '-' ∨ (48 ≤ c.toNat ∧ c.toNat ≤ 57) := by
  unfold intRepr at h
  split at h
  · rcases List.mem_cons.mp h with h1 | h1
    · exact Or.inl h1
    · exact Or.inr (natRepr_mem h1)
  · exact Or.inr (natRepr_mem h)

theorem numericCell_intRepr (i : Int) : numericCell (intRepr i) = true := by
  unfold numericCell
  rw [List.all_eq_true]
  intro c hc
  rcases intRepr_mem hc with h | h
  · simp [h]
  · simp [h.1, h.2]

theorem head?_append_ne {c : Char} {l1 l2 : Str}
    (h1 : l1.head? ≠ some c) (h2 : l2.head? ≠ some c) : (l1 ++ l2).head? ≠ some c := by
  cases l1 <;> simp_all

theorem head?_append_left {l1 l2 : Str} (h : l1 ≠ []) : (l1 ++ l2).head? = l1.head? := by
  cases l1 <;> simp_all

theorem replicate_head_ne {ch c : Char} (h : ch ≠ c) (n : Nat) :
    (List.replicate n ch).head? ≠ some c := by
  cases n <;> simp_all [List.replicate_succ]

theorem intRepr_head_ne_nl (i : Int) : (intRepr i).head? ≠ some '\n' := by
  cases hh : (intRepr i).head? with
  | none => simp
  | some c =>
    have hc : c ∈ intRepr i := by
      cases hl : intRepr i with
      | nil => rw [hl] at hh; simp at hh
      | cons a t =>
        rw [hl] at hh
        simp only [List.head?_cons, Option.some.injEq] at hh
        rw [hh]
        exact List.mem_cons_self _ _
    rcases intRepr_mem hc with h | h
    · simp [h]
    · intro hcon
      rw [Option.some.injEq] at hcon
      rw [hcon] at h
      revert h
      decide

theorem OpsString_ne_nil (b : Benches) (v : Bench) : b.OpsString v ≠ [] := by
  unfold Benches.OpsString
  split
  · simp [intRepr_ne_nil]
  · exact intRepr_ne_nil _

theorem OpsString_head_class (b : Benches) (v : Bench) {c : Char}
    (h : (b.OpsString v).head? = some c) : c = '-' ∨ (48 ≤ c.toNat ∧ c.toNat ≤ 57) := by
  unfold Benches.OpsString at h
  split at h
  · rw [head?_append_left (intRepr_ne_nil _)] at h
    cases hl : intRepr (wrap64 (v.result.Ops * v.Iterations)) with
    | nil => exact absurd hl (intRepr_ne_nil _)
    | cons a t =>
      rw [hl] at h
      simp only [List.head?_cons, Option.some.injEq] at h
      refine intRepr_mem (i := wrap64 (v.result.Ops * v.Iterations)) ?_
      rw [hl, ← h]
      exact List.mem_cons_self _ _
  · cases hl : intRepr (wrap64 (v.result.Ops * v.Iterations)) with
    | nil => exact absurd hl (intRepr_ne_nil _)
    | cons a t =>
      rw [hl] at h
      simp only [List.head?_cons, Option.some.injEq] at h
      refine intRepr_mem (i := wrap64 (v.result.Ops * v.Iterations)) ?_
      rw [hl, ← h]
      exact List.mem_cons_self _ _

theorem OpsString_head_ne_nl (b : Benches) (v : Bench) :
    (b.OpsString v).head? ≠ some '\n' := by
  intro h
  rcases OpsString_head_class b v h with h1 | h1
  · exact absurd h1 (by decide)
  · revert h1; decide

theorem perOpsString_spec (b : Benches) {v it : Int} {s : Str}
    (h : b.perOpsString v it = some s) :
    s ≠ [] ∧ s.head? ≠ some '\n' ∧ numericCell s = true := by
  unfold Benches.perOpsString at h
  split at h
  · rw [Option.some.injEq] at h
    subst h
    exact ⟨by decide, by decide, by decide⟩
  · split at h
    · exact absurd h (by simp)
    · rw [Option.some.injEq] at h
      subst h
      exact ⟨intRepr_ne_nil _, intRepr_head_ne_nl _, numericCell_intRepr _⟩

theorem suffixed_spec {s0 suf : Str} (h0 : s0 ≠ []) (hh : s0.head? ≠ some '\n')
    (flag : Bool) :
    (if flag then s0 ++ suf else s0) ≠ [] ∧ (if flag then s0 ++ suf else s0).head? ≠ some '\n' := by
  split
  · exact ⟨by simp [h0], by rw [head?_append_left h0]; exact hh⟩
  · exact ⟨h0, hh⟩

theorem NsOpString_spec (b : Benches) (v : Bench) {s : Str}
    (h : b.NsOpString v = some s) : s ≠ [] ∧ s.head? ≠ some '\n' := by
  unfold Benches.NsOpString at h
  cases h0 : b.perOpsString v.result.NsOp v.Iterations with
  | none => rw [h0] at h; exact absurd h (by simp)
  | some s0 =>
    rw [h0] at h
    simp only [Option.bind_eq_bind, Option.some_bind, Option.pure_def, Option.some.injEq] at h
    rcases perOpsString_spec b h0 with ⟨h1, h2, _⟩
    subst h
    exact suffixed_spec h1 h2 _

theorem BytesOpString_spec (b : Benches) (v : Bench) {s : Str}
    (h : b.BytesOpString v = some s) : s ≠ [] ∧ s.head? ≠ some '\n' := by
  unfold Benches.BytesOpString at h
  cases h0 : b.perOpsString v.result.BytesOp v.Iterations with
  | none => rw [h0] at h; exact absurd h (by simp)
  | some s0 =>
    rw [h0] at h
    simp only [Option.bind_eq_bind, Option.some_bind, Option.pure_def, Option.some.injEq] at h
    rcases perOpsString_spec b h0 with ⟨h1, h2, _⟩
    subst h
    exact suffixed_spec h1 h2 _

theorem AllocsOpString_spec (b : Benches) (v : Bench) {s : Str}
    (h : b.AllocsOpString v = some s) : s ≠ [] ∧ s.head? ≠ some '\n' := by
  unfold Benches.AllocsOpString at h
  cases h0 : b.perOpsString v.result.AllocsOp v.Iterations with
  | none => rw [h0] at h; exact absurd h (by simp)
  | some s0 =>
    rw [h0] at h
    simp only [Option.bind_eq_bind, Option.some_bind, Option.pure_def, Option.some.injEq] at h
    rcases perOpsString_spec b h0 with ⟨h1, h2, _⟩
    subst h
    exact suffixed_spec h1 h2 _

theorem columnR_ne_nil (b : Benches) (w : Nat) {s : Str} (h : s ≠ []) :
    b.columnR w s ≠ [] := by
  unfold Benches.columnR
  simp [h]

theorem space_ne_nl : (' ' : Char) ≠ '\n' := by decide

theorem columnR_head_ne_nl (b : Benches) (w : Nat) {s : Str}
    (h : s.head? ≠ some '\n') : (b.columnR w s).head? ≠ some '\n' := by
  unfold Benches.columnR
  exact head?_append_ne (head?_append_ne (replicate_head_ne space_ne_nl _) h)
    (replicate_head_ne space_ne_nl _)

theorem columnL_spec (b : Benches) {w : Nat} {s : Str} (hw : 0 < w)
    (h : s.head? ≠ some '\n') :
    (b.columnL w s).head? ≠ some '\n' ∧ b.columnL w s ≠ [] := by
  unfold Benches.columnL
  cases s with
  | nil =>
    simp only [List.length_nil, List.nil_append]
    have hcond : ¬ (w + b.columnPadding < 0) := by omega
    rw [if_neg hcond]
    constructor
    · exact replicate_head_ne space_ne_nl _
    · have : 0 < w + b.columnPadding - 0 := by omega
      simp [List.replicate, ← List.length_pos]
      omega
  | cons a t =>
    constructor
    · exact head?_append_ne h (replicate_head_ne space_ne_nl _)
    · simp

theorem BenchString_spec (b : Benches) (v : Bench) {s : Str}
    (h : StringBench.BenchString b v = some s) : s ≠ [] ∧ s.head? ≠ some '\n' := by
  unfold StringBench.BenchString at h
  cases h1 : b.NsOpString v with
  | none => rw [h1] at h; exact absurd h (by simp)
  | some ns =>
    cases h2 : b.BytesOpString v with
    | none => rw [h1, h2] at h; exact absurd h (by simp)
    | some bo =>
      cases h3 : b.AllocsOpString v with
      | none => rw [h1, h2, h3] at h; exact absurd h (by simp)
      | some al =>
        rw [h1, h2, h3] at h
        simp only [Option.bind_eq_bind, Option.some_bind, Option.pure_def, Option.some.injEq] at h
        subst h
        have hops := columnR_ne_nil b b.length.Ops (OpsString_ne_nil b v)
        constructor
        · simp [hops]
        · rw [head?_append_left (by simp [hops]), head?_append_left (by simp [hops]),
            head?_append_left hops]
          exact columnR_head_ne_nl b _ (OpsString_head_ne_nl b v)

theorem ite_col_head_ne_nl (b : Benches) (w : Nat) (s : Str) (c : Prop) [Decidable c]
    (hcw : c → 0 < w) (h : s.head? ≠ some '\n') :
    (if c then b.columnL w s else []).head? ≠ some '\n' := by
  split
  · next hc => exact (columnL_spec b (hcw hc) h).1
  · simp

theorem resultLine_head (b : Benches) (prior : Str) (v : Bench) {s : Str}
    (hg : v.Group.head? ≠ some '\n') (hsg : v.SubGroup.head? ≠ some '\n')
    (hn : v.Name.head? ≠ some '\n') (hd : v.Desc.head? ≠ some '\n')
    (h : StringBench.resultLine b prior v = some s) :
    (s.head? = some '\n' ↔ (b.sectionPerGroup = true ∧ v.Group ≠ prior)) := by
  unfold StringBench.resultLine at h
  cases hb : StringBench.BenchString b v with
  | none => rw [hb] at h; exact absurd h (by simp)
  | some bs =>
    rw [hb] at h
    simp only [Option.bind_eq_bind, Option.some_bind, Option.pure_def, Option.some.injEq] at h
    rcases BenchString_spec b v hb with ⟨hbs, hbsh⟩
    by_cases hcond : b.sectionPerGroup = true ∧ v.Group ≠ prior
    · rw [if_pos hcond] at h
      subst h
      simpa using hcond
    · rw [if_neg hcond] at h
      subst h
      simp only [List.nil_append]
      have hrest : ((((((if 0 < b.length.Group then b.columnL b.length.Group v.Group else []) ++
          (if 0 < b.length.SubGroup then b.columnL b.length.SubGroup v.SubGroup else [])) ++
          (if 0 < b.length.Name then b.columnL b.length.Name v.Name else [])) ++
          (if 0 < b.length.Desc then b.columnL b.length.Desc v.Desc else [])) ++ bs) ++
          (if 0 < b.length.Note then b.Note else [])).head? ≠ some '\n' := by
        rw [head?_append_left (by simp [hbs])]
        refine head?_append_ne ?_ hbsh
        refine head?_append_ne ?_ (ite_col_head_ne_nl b _ _ _ (fun hc => hc) hd)
        refine head?_append_ne ?_ (ite_col_head_ne_nl b _ _ _ (fun hc => hc) hn)
        exact head?_append_ne (ite_col_head_ne_nl b _ _ _ (fun hc => hc) hg)
          (ite_col_head_ne_nl b _ _ _ (fun hc => hc) hsg)
      constructor
      · intro hcon; exact absurd hcon hrest
      · intro hcon; exact absurd hcon hcond

theorem writeResultsAux_count (b : Benches) :
    ∀ (bs : List Bench) (prior : Str) (ls : List Str),
      (∀ v ∈ bs, noLeadingNL v) →
      StringBench.writeResultsAux b prior bs = some ls →
      countNLHead ls = if b.sectionPerGroup then transitions prior bs else 0 := by
  intro bs
  induction bs with
  | nil =>
    intro prior ls _ h
    simp only [StringBench.writeResultsAux, Option.some.injEq] at h
    subst h
    simp [countNLHead, transitions]
  | cons v rest ih =>
    intro prior ls hv h
    simp only [StringBench.writeResultsAux] at h
    cases hline : StringBench.resultLine b prior v with
    | none => rw [hline] at h; exact absurd h (by simp)
    | some line =>
      rw [hline] at h
      cases hrest : StringBench.writeResultsAux b v.Group rest with
      | none => rw [hrest] at h; exact absurd h (by simp)
      | some ls' =>
        rw [hrest] at h
        simp only [Option.bind_eq_bind, Option.some_bind, Option.pure_def,
          Option.some.injEq] at h
        subst h
        rcases hv v (List.mem_cons_self _ _) with ⟨h1, h2, h3, h4⟩
        have hhead := resultLine_head b prior v h1 h2 h3 h4 hline
        have hcount := ih v.Group ls' (fun w hw => hv w (List.mem_cons_of_mem _ hw)) hrest
        unfold countNLHead at hcount ⊢
        rw [List.countP_cons, hcount]
        simp only [transitions]
        by_cases hspg : b.sectionPerGroup = true
        · by_cases hgr : v.Group ≠ prior
          · have hl : line.head? = some '\n' := hhead.mpr ⟨hspg, hgr⟩
            simp [hspg, hgr, hl]
            omega
          · have hl : ¬ line.head? = some '\n' := fun hc => hgr (hhead.mp hc).2
            simp [hspg, hgr, hl]
        · have hl : ¬ line.head? = some '\n' := fun hc => hspg ((hhead.mp hc).1)
          simp [hspg, hl]

theorem row_with_ops_not_blank {r : List Str} {x : Str} (hx : x ∈ r) (hne : x ≠ []) :
    isBlankRow r = false := by
  unfold isBlankRow
  have hall : r.all List.isEmpty = false := by
    cases hh : r.all List.isEmpty
    · rfl
    · exfalso
      have := List.all_eq_true.mp hh x hx
      exact hne (by simpa using this)
  simp [hall]

theorem csv_has_ops (b : Benches) (v : Bench) {r : List Str} (h : b.csv v = some r) :
    b.OpsString v ∈ r := by
  unfold Benches.csv at h
  cases h0 : b.resultCSV v with
  | none => rw [h0] at h; exact absurd h (by simp)
  | some r0 =>
    rw [h0] at h
    simp only [Option.bind_eq_bind, Option.some_bind, Option.pure_def, Option.some.injEq] at h
    subst h
    unfold Benches.resultCSV at h0
    cases hn : b.NsOpString v with
    | none => rw [hn] at h0; exact absurd h0 (by simp)
    | some ns =>
      cases hb2 : b.BytesOpString v with
      | none => rw [hn, hb2] at h0; exact absurd h0 (by simp)
      | some bo =>
        cases ha : b.AllocsOpString v with
        | none => rw [hn, hb2, ha] at h0; exact absurd h0 (by simp)
        | some al =>
          rw [hn, hb2, ha] at h0
          simp only [Option.bind_eq_bind, Option.some_bind, Option.pure_def,
            Option.some.injEq] at h0
          subst h0
          exact List.mem_append_left _ (List.mem_append_right _ (by simp))

theorem csvHdr_has_operations (b : Benches) : "Operations".data ∈ csvHdr b := by
  unfold csvHdr
  refine List.mem_append_left _ (List.mem_append_right _ ?_)
  simp

theorem csvHdr_not_blank (b : Benches) : isBlankRow (csvHdr b) = false :=
  row_with_ops_not_blank (csvHdr_has_operations b) (by decide)

theorem csvHdr_length_pos (b : Benches) : 0 < (csvHdr b).length := by
  unfold csvHdr
  split_ifs <;> simp

theorem blank_replicate {n : Nat} (h : 0 < n) :
    isBlankRow (List.replicate n ([] : Str)) = true := by
  cases n with
  | zero => exact absurd h (by omega)
  | succ m =>
    unfold isBlankRow
    simp only [List.replicate_succ, List.isEmpty_cons, Bool.not_false, List.all_cons,
      List.isEmpty_nil, Bool.true_and]
    rw [List.all_eq_true]
    intro x hx
    have := List.eq_of_mem_replicate hx
    simp [this]

theorem csvOutAux_blank_count (b : Benches) (hdr empty : List Str)
    (hhdr : isBlankRow hdr = false) (hempty : isBlankRow empty = true) :
    ∀ (bs : List Bench) (prior : Str) (rows : List (List Str)),
      csvOutAux b hdr empty prior bs = some rows →
      countBlankRows rows = if b.sectionPerGroup then transitions prior bs else 0 := by
  intro bs
  induction bs with
  | nil =>
    intro prior rows h
    simp only [csvOutAux, Option.some.injEq] at h
    subst h
    simp [countBlankRows, transitions]
  | cons v rest ih =>
    intro prior rows h
    simp only [csvOutAux] at h
    cases hrow : b.csv v with
    | none => rw [hrow] at h; exact absurd h (by simp)
    | some row =>
      rw [hrow] at h
      cases hrest : csvOutAux b hdr empty v.Group rest with
      | none => rw [hrest] at h; exact absurd h (by simp)
      | some rows' =>
        rw [hrest] at h
        simp only [Option.bind_eq_bind, Option.some_bind, Option.pure_def,
          Option.some.injEq] at h
        subst h
        have hrnb := row_with_ops_not_blank (csv_has_ops b v hrow) (OpsString_ne_nil b v)
        have hcount := ih v.Group rows' hrest
        unfold countBlankRows at hcount ⊢
        rw [List.countP_append, List.countP_cons, hcount]
        simp only [transitions]
        by_cases hspg : b.sectionPerGroup = true
        · by_cases hg : v.Group ≠ prior
          · rw [if_pos ⟨hg, hspg⟩]
            by_cases hsh : b.sectionHeaders = true
            · simp [hsh, List.countP_cons, hempty, hhdr, hrnb, hspg, hg]
            · simp [hsh, List.countP_cons, hempty, hhdr, hrnb, hspg, hg]
          · rw [if_neg (by tauto)]
            simp [hrnb, hspg, hg]
        · rw [if_neg (by tauto)]
          have hspg' : b.sectionPerGroup = false := by
            cases hb2 : b.sectionPerGroup
            · rfl
            · exact absurd hb2 hspg
          simp [hrnb, hspg']

theorem setLength_Benchmarks (b : Benches) : (b.setLength).Benchmarks = b.Benchmarks := rfl

theorem setLength_sectionPerGroup (b : Benches) :
    (b.setLength).sectionPerGroup = b.sectionPerGroup := rfl

theorem setLength_sectionHeaders (b : Benches) :
    (b.setLength).sectionHeaders = b.sectionHeaders := rfl

/-- C9: for a record sequence whose group values change exactly k times
between adjacent elements, the text renderer emits exactly k boundary
events (lines carrying the prepended separator newline) and the CSV
renderer emits exactly k blank records when `sectionPerGroup` is true,
and zero when it is false.  The side condition asks that no leading
textual field of a record start with a newline character, so that a
leading newline identifies a boundary. -/
theorem c9_boundary_event_count (bt bc : Benches) (ls : List Str) (rows : List (List Str))
    (hfields : ∀ v ∈ bt.Benchmarks, noLeadingNL v)
    (htext : StringBench.WriteResults bt = some ls)
    (hcsv : csvOut bc = some rows) :
    countNLHead ls = (if bt.sectionPerGroup then groupTransitions bt.Benchmarks else 0)
    ∧ countBlankRows rows = (if bc.sectionPerGroup then groupTransitions bc.Benchmarks else 0) := by
  constructor
  · unfold StringBench.WriteResults at htext
    cases hbs : bt.Benchmarks with
    | nil => rw [hbs] at htext; exact absurd htext (by simp)
    | cons v0 rest =>
      rw [hbs] at htext
      rw [hbs] at hfields
      have hc := writeResultsAux_count bt (v0 :: rest) v0.Group ls hfields htext
      rw [hc]
      rfl
  · simp only [csvOut, setLength_Benchmarks] at hcsv
    cases hbs : bc.Benchmarks with
    | nil => rw [hbs] at hcsv; exact absurd hcsv (by simp)
    | cons v0 rest =>
      rw [hbs] at hcsv
      dsimp only at hcsv
      cases haux : csvOutAux bc.setLength (csvHdr bc.setLength)
          (List.replicate (csvHdr bc.setLength).length []) v0.Group (v0 :: rest) with
      | none => rw [haux] at hcsv; exact absurd hcsv (by simp)
      | some rows' =>
        rw [haux] at hcsv
        simp only [Option.bind_eq_bind, Option.some_bind, Option.pure_def,
          Option.some.injEq] at hcsv
        subst hcsv
        have hc := csvOutAux_blank_count bc.setLength (csvHdr bc.setLength)
          (List.replicate (csvHdr bc.setLength).length []) (csvHdr_not_blank _)
          (blank_replicate (csvHdr_length_pos _)) (v0 :: rest) v0.Group rows' haux
        unfold countBlankRows at hc ⊢
        rw [List.countP_cons, hc, setLength_sectionPerGroup]
        simp [csvHdr_not_blank, groupTransitions]

theorem strip_ite {c : Prop} [Decidable c] {x y : Str} {l1 l2 : List Str}
    (h : (if c then [x] else []) ++ l1 = (if c then [y] else []) ++ l2) : l1 = l2 := by
  by_cases hc : c
  · simp only [if_pos hc, List.cons_append, List.nil_append, List.cons.injEq] at h
    exact h.2
  · simpa only [if_neg hc, List.nil_append] using h

theorem csv_ne_hdr (b : Benches) (v : Bench) {r : List Str} (h : b.csv v = some r) :
    r ≠ csvHdr b := by
  intro hcon
  unfold Benches.csv at h
  cases h0 : b.resultCSV v with
  | none => rw [h0] at h; exact absurd h (by simp)
  | some r0 =>
    rw [h0] at h
    simp only [Option.bind_eq_bind, Option.some_bind, Option.pure_def, Option.some.injEq] at h
    unfold Benches.resultCSV at h0
    cases hn : b.NsOpString v with
    | none => rw [hn] at h0; exact absurd h0 (by simp)
    | some ns =>
      cases hb2 : b.BytesOpString v with
      | none => rw [hn, hb2] at h0; exact absurd h0 (by simp)
      | some bo =>
        cases ha : b.AllocsOpString v with
        | none => rw [hn, hb2, ha] at h0; exact absurd h0 (by simp)
        | some al =>
          rw [hn, hb2, ha] at h0
          simp only [Option.bind_eq_bind, Option.some_bind, Option.pure_def,
            Option.some.injEq] at h0
          subst h0
          subst h
          unfold csvHdr at hcon
          simp only [List.append_assoc, List.cons_append, List.nil_append] at hcon
          have h1 := strip_ite hcon
          have h2 := strip_ite h1
          have h3 := strip_ite h2
          have h4 := strip_ite h3
          simp only [List.cons.injEq] at h4
          have hops : b.OpsString v = "Operations".data := h4.1
          have hhead : (b.OpsString v).head? = some 'O' := by rw [hops]; rfl
          rcases OpsString_head_class b v hhead with h5 | h5
          · exact absurd h5 (by decide)
          · revert h5; decide

theorem csvOutAux_hdr_count (b : Benches) (hdr empty : List Str)
    (hempty : isBlankRow empty = true) (hhdr : isBlankRow hdr = false)
    (hrow_ne : ∀ (v : Bench) (r : List Str), b.csv v = some r → r ≠ hdr)
    (hsh : b.sectionHeaders = true) :
    ∀ (bs : List Bench) (prior : Str) (rows : List (List Str)),
      csvOutAux b hdr empty prior bs = some rows →
      countHdrRows hdr rows = if b.sectionPerGroup then transitions prior bs else 0 := by
  have hempty_ne : (empty == hdr) = false := by
    cases he : empty == hdr
    · rfl
    · exfalso
      have : empty = hdr := by simpa using he
      rw [this, hhdr] at hempty
      exact absurd hempty (by simp)
  intro bs
  induction bs with
  | nil =>
    intro prior rows h
    simp only [csvOutAux, Option.some.injEq] at h
    subst h
    simp [countHdrRows, transitions]
  | cons v rest ih =>
    intro prior rows h
    simp only [csvOutAux] at h
    cases hrow : b.csv v with
    | none => rw [hrow] at h; exact absurd h (by simp)
    | some row =>
      rw [hrow] at h
      cases hrest : csvOutAux b hdr empty v.Group rest with
      | none => rw [hrest] at h; exact absurd h (by simp)
      | some rows' =>
        rw [hrest] at h
        simp only [Option.bind_eq_bind, Option.some_bind, Option.pure_def,
          Option.some.injEq] at h
        subst h
        have hrow_ne' : (row == hdr) = false := by
          cases he : row == hdr
          · rfl
          · exact absurd (by simpa using he) (hrow_ne v row hrow)
        have hcount := ih v.Group rows' hrest
        unfold countHdrRows at hcount ⊢
        rw [List.countP_append, List.countP_cons, hcount]
        simp only [transitions]
        by_cases hspg : b.sectionPerGroup = true
        · by_cases hg : v.Group ≠ prior
          · rw [if_pos ⟨hg, hspg⟩]
            simp [hsh, List.countP_cons, hempty_ne, hrow_ne', hspg, hg]
          · rw [if_neg (by tauto)]
            simp [hrow_ne', hspg, hg]
        · rw [if_neg (by tauto)]
          have hspg' : b.sectionPerGroup = false := by
            cases hb2 : b.sectionPerGroup
            · rfl
            · exact absurd hb2 hspg
          simp [hrow_ne', hspg']

theorem resultLine_sectionHeaders (c : Benches) (x y : Bool) (prior : Str) (v : Bench) :
    StringBench.resultLine { c with sectionHeaders := x } prior v
      = StringBench.resultLine { c with sectionHeaders := y } prior v := rfl

theorem writeResultsAux_sectionHeaders (c : Benches) (x y : Bool) :
    ∀ (bs : List Bench) (prior : Str),
      StringBench.writeResultsAux { c with sectionHeaders := x } prior bs
        = StringBench.writeResultsAux { c with sectionHeaders := y } prior bs := by
  intro bs
  induction bs with
  | nil => intro prior; rfl
  | cons v rest ih =>
    intro prior
    simp only [StringBench.writeResultsAux]
    rw [resultLine_sectionHeaders c x y prior v, ih v.Group]

theorem WriteResults_sectionHeaders (c : Benches) (x y : Bool) :
    StringBench.WriteResults { c with sectionHeaders := x }
      = StringBench.WriteResults { c with sectionHeaders := y } := by
  unfold StringBench.WriteResults
  rw [show ({ c with sectionHeaders := x } : Benches).Benchmarks = c.Benchmarks from rfl,
    show ({ c with sectionHeaders := y } : Benches).Benchmarks = c.Benchmarks from rfl]
  cases c.Benchmarks with
  | nil => rfl
  | cons v0 rest =>
    dsimp only
    exact writeResultsAux_sectionHeaders { c with Benchmarks := v0 :: rest } x y
      (v0 :: rest) v0.Group

/-- Witness for C9: the concrete two-group record set with one group
transition and `sectionPerGroup` enabled yields exactly one boundary
event in the text output and one blank record in the CSV output. -/
theorem c9_witness :
    countNLHead ((StringBench.WriteResults bT9).getD [])
        = (if bT9.sectionPerGroup then groupTransitions bT9.Benchmarks else 0)
    ∧ countBlankRows ((csvOut bT9).getD [])
        = (if bT9.sectionPerGroup then groupTransitions bT9.Benchmarks else 0) :=
  c9_boundary_event_count bT9 bT9 ((StringBench.WriteResults bT9).getD [])
    ((csvOut bT9).getD []) (by decide) rfl rfl

/-- C5 (amended): when both `sectionPerGroup` and `sectionHeaders` are
set, the CSV renderer re-emits the header record at every group boundary
(the header record occurs 1 + k times for k transitions), while the text
renderer ignores `sectionHeaders` entirely: its record output is the same
for any value of that flag. -/
theorem c5_csv_repeats_header_text_ignores (b c : Benches) (x y : Bool)
    (rows : List (List Str))
    (hspg : b.sectionPerGroup = true) (hsh : b.sectionHeaders = true)
    (hcsv : csvOut b = some rows) :
    countHdrRows (csvHdr b.setLength) rows = 1 + groupTransitions b.Benchmarks
    ∧ StringBench.WriteResults { c with sectionHeaders := x }
        = StringBench.WriteResults { c with sectionHeaders := y } := by
  refine ⟨?_, WriteResults_sectionHeaders c x y⟩
  simp only [csvOut, setLength_Benchmarks] at hcsv
  cases hbs : b.Benchmarks with
  | nil => rw [hbs] at hcsv; exact absurd hcsv (by simp)
  | cons v0 rest =>
    rw [hbs] at hcsv
    dsimp only at hcsv
    cases haux : csvOutAux b.setLength (csvHdr b.setLength)
        (List.replicate (csvHdr b.setLength).length []) v0.Group (v0 :: rest) with
    | none => rw [haux] at hcsv; exact absurd hcsv (by simp)
    | some rows' =>
      rw [haux] at hcsv
      simp only [Option.bind_eq_bind, Option.some_bind, Option.pure_def,
        Option.some.injEq] at hcsv
      subst hcsv
      have hc := csvOutAux_hdr_count b.setLength (csvHdr b.setLength)
        (List.replicate (csvHdr b.setLength).length [])
        (blank_replicate (csvHdr_length_pos _)) (csvHdr_not_blank _)
        (fun v r hr => csv_ne_hdr b.setLength v hr)
        (by rw [setLength_sectionHeaders]; exact hsh)
        (v0 :: rest) v0.Group rows' haux
      unfold countHdrRows at hc ⊢
      rw [List.countP_cons, hc, setLength_sectionPerGroup, hspg]
      simp [groupTransitions]
      omega

set_option maxRecDepth 4000 in
/-- C5 counterexample: with `sectionPerGroup` and `sectionHeaders` both
enabled and one group transition, the full text output contains the header
line exactly once — the text renderer does not repeat the header row at
the group boundary, refuting the claim for the text format. -/
theorem c5_counterexample :
    bC5.sectionPerGroup = true ∧ bC5.sectionHeaders = true
    ∧ groupTransitions bC5.Benchmarks = 1
    ∧ ((StringBench.Out bC5).getD []).countP
        (fun l => l == StringBench.WriteHeader bC5.setLength) = 1 := by
  decide

/-- Witness for C5: at the concrete two-group record set the CSV output
holds the header record twice (once up front, once at the boundary), and
the text record output is unchanged when `sectionHeaders` is toggled. -/
theorem c5_witness :
    countHdrRows (csvHdr bC5.setLength) ((csvOut bC5).getD [])
        = 1 + groupTransitions bC5.Benchmarks
    ∧ StringBench.WriteResults { bT9 with sectionHeaders := true }
        = StringBench.WriteResults { bT9 with sectionHeaders := false } :=
  c5_csv_repeats_header_text_ignores bC5 bT9 true false ((csvOut bC5).getD []) rfl rfl rfl

/-- C1: every renderer, invoked on a record set containing zero records,
reaches the unguarded read of the first record (`Benchmarks[0]`) and
panics (modelled as `none`) instead of failing with an error; the text
and CSV renderers have moreover already emitted header material by that
point, so nothing about the required clean failure holds. -/
theorem c1_empty_input_panics :
    StringBench.Out bEmpty = none ∧ csvOut bEmpty = none ∧ MDBench.Out mEmpty = none :=
  ⟨rfl, rfl, rfl⟩

/-- C2 counterexample: with `includeOpsColumnDesc` enabled the CSV data
record contains the annotated cell `4000 ops`, so a unit-suffix does
appear in a CSV cell. -/
theorem c2_counterexample :
    bC2.includeOpsColumnDesc = true
    ∧ ("4000 ops".data) ∈ ((csvOut bC2).getD []).getD 1 [] := by
  decide

theorem OpsString_numeric (b : Benches) (v : Bench)
    (hflag : b.includeOpsColumnDesc = false) : numericCell (b.OpsString v) = true := by
  unfold Benches.OpsString
  rw [hflag]
  simp only [Bool.false_eq_true, if_false]
  exact numericCell_intRepr _

theorem NsOpString_numeric (b : Benches) (v : Bench) {s : Str}
    (hflag : b.includeOpsColumnDesc = false) (h : b.NsOpString v = some s) :
    numericCell s = true := by
  unfold Benches.NsOpString at h
  cases h0 : b.perOpsString v.result.NsOp v.Iterations with
  | none => rw [h0] at h; exact absurd h (by simp)
  | some s0 =>
    rw [h0] at h
    simp only [Option.bind_eq_bind, Option.some_bind, Option.pure_def, Option.some.injEq] at h
    rw [hflag] at h
    simp only [Bool.false_eq_true, if_false] at h
    subst h
    exact (perOpsString_spec b h0).2.2

theorem BytesOpString_numeric (b : Benches) (v : Bench) {s : Str}
    (hflag : b.includeOpsColumnDesc = false) (h : b.BytesOpString v = some s) :
    numericCell s = true := by
  unfold Benches.BytesOpString at h
  cases h0 : b.perOpsString v.result.BytesOp v.Iterations with
  | none => rw [h0] at h; exact absurd h (by simp)
  | some s0 =>
    rw [h0] at h
    simp only [Option.bind_eq_bind, Option.some_bind, Option.pure_def, Option.some.injEq] at h
    rw [hflag] at h
    simp only [Bool.false_eq_true, if_false] at h
    subst h
    exact (perOpsString_spec b h0).2.2

theorem AllocsOpString_numeric (b : Benches) (v : Bench) {s : Str}
    (hflag : b.includeOpsColumnDesc = false) (h : b.AllocsOpString v = some s) :
    numericCell s = true := by
  unfold Benches.AllocsOpString at h
  cases h0 : b.perOpsString v.result.AllocsOp v.Iterations with
  | none => rw [h0] at h; exact absurd h (by simp)
  | some s0 =>
    rw [h0] at h
    simp only [Option.bind_eq_bind, Option.some_bind, Option.pure_def, Option.some.injEq] at h
    rw [hflag] at h
    simp only [Bool.false_eq_true, if_false] at h
    subst h
    exact (perOpsString_spec b h0).2.2

/-- C2 (amended): the four numeric CSV cells of a record are bare
rendered integers — no space, hence no unit-suffix text — exactly when
`includeOpsColumnDesc` is disabled; with the flag enabled the same
suffixed forms as in the text output appear in CSV cells. -/
theorem c2_csv_cells_bare_without_descriptors (b : Benches) (v : Bench) (r : List Str)
    (hflag : b.includeOpsColumnDesc = false) (hr : b.resultCSV v = some r) :
    r.all numericCell = true := by
  unfold Benches.resultCSV at hr
  cases hn : b.NsOpString v with
  | none => rw [hn] at hr; exact absurd hr (by simp)
  | some ns =>
    cases hb2 : b.BytesOpString v with
    | none => rw [hn, hb2] at hr; exact absurd hr (by simp)
    | some bo =>
      cases ha : b.AllocsOpString v with
      | none => rw [hn, hb2, ha] at hr; exact absurd hr (by simp)
      | some al =>
        rw [hn, hb2, ha] at hr
        simp only [Option.bind_eq_bind, Option.some_bind, Option.pure_def,
          Option.some.injEq] at hr
        subst hr
        simp only [List.all_cons, List.all_nil, Bool.and_true]
        rw [OpsString_numeric b v hflag, NsOpString_numeric b v hflag hn,
          BytesOpString_numeric b v hflag hb2, AllocsOpString_numeric b v hflag ha]
        rfl

/-- Witness for C2 (amended) at a concrete record with the flag off. -/
theorem c2_witness : (((bW2.resultCSV benchC2).getD []).all numericCell) = true :=
  c2_csv_cells_bare_without_descriptors bW2 benchC2 ((bW2.resultCSV benchC2).getD []) rfl rfl

set_option maxRecDepth 4000 in
/-- C4 is violated by the code: the text renderer appends the
collection-level `Note` field to every record line instead of the
record's own note.  At a record set whose collection note is `SETNOTE`
and whose single record carries note `recnote`, the emitted line ends in
`SETNOTE` and does not end with the record's own note. -/
theorem c4_note_cell_uses_collection_note :
    bC4.Note = "SETNOTE".data
    ∧ bC4.Benchmarks.map Bench.Note = ["recnote".data]
    ∧ 0 < (bC4.setLength).length.Note
    ∧ (StringBench.WriteResults bC4.setLength).isSome = true
    ∧ List.IsSuffix ("SETNOTE".data) (((StringBench.WriteResults bC4.setLength).getD []).getD 0 [])
    ∧ ¬ List.IsSuffix ("recnote".data) (((StringBench.WriteResults bC4.setLength).getD []).getD 0 []) := by
  decide

/-- C6 counterexample: with `sectionPerGroup` enabled but
`GroupAsSectionName` disabled, the Markdown table header omits the group
column even though the record set has a non-empty group value — the
omission is not equivalent to `GroupAsSectionName` being true. -/
theorem c6_counterexample :
    mC6.GroupAsSectionName = false
    ∧ 0 < (mC6.toBenches.setLength).length.Group
    ∧ (MDBench.Out mC6).isSome = true
    ∧ ("Group".data) ∉ ((MDBench.Out mC6).map (fun r => r.2.1)).getD [] := by
  decide

theorem mem_ite_singleton {c : Prop} [Decidable c] {x y : Str} :
    (x ∈ (if c then [y] else [])) ↔ (c ∧ x = y) := by
  split <;> simp_all

/-- C6 (amended): with the default header labels, the group column
appears in the Markdown table header exactly when it participates and
none of `sectionPerGroup`, `sectionHeaders`, `GroupAsSectionName` is set
— not merely when `GroupAsSectionName` is false; and the group value is
printed as a section title exactly when all three of
`GroupAsSectionName`, `sectionPerGroup`, `sectionHeaders` are set. -/
theorem c6_group_column_condition (m : MDBench) (s : Str)
    (hh : m.toBenches.header = newHeader) :
    (("Group".data ∈ (MDBench.hdrAlign m).2) ↔
      (0 < m.toBenches.length.Group ∧ m.toBenches.sectionPerGroup = false
        ∧ m.toBenches.sectionHeaders = false ∧ m.GroupAsSectionName = false))
    ∧ ((MDBench.SectionName m s).isSome = true ↔
      (m.GroupAsSectionName = true ∧ m.toBenches.sectionPerGroup = true
        ∧ m.toBenches.sectionHeaders = true)) := by
  constructor
  · unfold MDBench.hdrAlign
    dsimp only
    rw [hh]
    have e1 : "Group".data ≠ "Sub-Group".data := by decide
    have e2 : "Group".data ≠ "Name".data := by decide
    have e3 : "Group".data ≠ "Desc".data := by decide
    have e4 : "Group".data ≠ "Ops".data := by decide
    have e5 : "Group".data ≠ "ns/Op".data := by decide
    have e6 : "Group".data ≠ "B/Op".data := by decide
    have e7 : "Group".data ≠ "Allocs/Op".data := by decide
    have e8 : "Group".data ≠ "Note".data := by decide
    simp only [newHeader, List.mem_append, mem_ite_singleton, List.mem_cons,
      List.mem_singleton, List.not_mem_nil]
    simp only [e1, e2, e3, e4, e5, e6, e7, e8, and_false, false_or, or_false, and_true]
    constructor
    · rintro ⟨h1, h2, h3, h4⟩
      refine ⟨h1, ?_, ?_, ?_⟩ <;> simp_all
    · rintro ⟨h1, h2, h3, h4⟩
      refine ⟨h1, ?_, ?_, ?_⟩ <;> simp_all
  · unfold MDBench.SectionName
    split
    · next hcond =>
      constructor
      · intro hcon; exact absurd hcon (by simp)
      · rintro ⟨h1, h2, h3⟩
        exfalso
        rcases hcond with hc | hc | hc <;> simp_all
    · next hcond =>
      push_neg at hcond
      rcases hcond with ⟨h1, h2, h3⟩
      simp_all

/-- Witness for C6 (amended) at the concrete Markdown renderer state
`mC6` (sectioning on, `GroupAsSectionName` off). -/
theorem c6_witness :
    (("Group".data ∈ (MDBench.hdrAlign mC6).2) ↔
      (0 < mC6.toBenches.length.Group ∧ mC6.toBenches.sectionPerGroup = false
        ∧ mC6.toBenches.sectionHeaders = false ∧ mC6.GroupAsSectionName = false))
    ∧ ((MDBench.SectionName mC6 ("g1".data)).isSome = true ↔
      (mC6.GroupAsSectionName = true ∧ mC6.toBenches.sectionPerGroup = true
        ∧ mC6.toBenches.sectionHeaders = true)) :=
  c6_group_column_condition mC6 ("g1".data) rfl

theorem lle_refl (l : length) : length.le l l := by
  unfold length.le
  exact ⟨le_refl _, le_refl _, le_refl _, le_refl _, le_refl _, le_refl _, le_refl _,
    le_refl _, le_refl _⟩

theorem lle_trans {a b c : length} (h1 : length.le a b) (h2 : length.le b c) :
    length.le a c := by
  unfold length.le at *
  obtain ⟨a1, a2, a3, a4, a5, a6, a7, a8, a9⟩ := h1
  obtain ⟨b1, b2, b3, b4, b5, b6, b7, b8, b9⟩ := h2
  exact ⟨by omega, by omega, by omega, by omega, by omega, by omega, by omega, by omega,
    by omega⟩

theorem le_lmax_left (l x : length) : length.le l (lmax l x) := by
  unfold length.le lmax
  exact ⟨Nat.le_max_left _ _, Nat.le_max_left _ _, Nat.le_max_left _ _, Nat.le_max_left _ _,
    Nat.le_max_left _ _, Nat.le_max_left _ _, Nat.le_max_left _ _, Nat.le_max_left _ _,
    Nat.le_max_left _ _⟩

theorem le_lmax_right (l x : length) : length.le x (lmax l x) := by
  unfold length.le lmax
  exact ⟨Nat.le_max_right _ _, Nat.le_max_right _ _, Nat.le_max_right _ _,
    Nat.le_max_right _ _, Nat.le_max_right _ _, Nat.le_max_right _ _, Nat.le_max_right _ _,
    Nat.le_max_right _ _, Nat.le_max_right _ _⟩

theorem lmax_absorb {l x : length} (h : length.le x l) : lmax l x = l := by
  unfold length.le at h
  obtain ⟨h1, h2, h3, h4, h5, h6, h7, h8, h9⟩ := h
  unfold lmax
  ext <;> dsimp
  · exact Nat.max_eq_left h1
  · exact Nat.max_eq_left h2
  · exact Nat.max_eq_left h3
  · exact Nat.max_eq_left h4
  · exact Nat.max_eq_left h5
  · exact Nat.max_eq_left h6
  · exact Nat.max_eq_left h7
  · exact Nat.max_eq_left h8
  · exact Nat.max_eq_left h9

theorem setLenFold_ge : ∀ (bs : List Bench) (l : length), length.le l (setLenFold l bs) := by
  intro bs
  induction bs with
  | nil => intro l; exact lle_refl l
  | cons v rest ih =>
    intro l
    have hstep : setLenFold l (v :: rest) = setLenFold (lmax l (benchLen v)) rest := rfl
    rw [hstep]
    exact lle_trans (le_lmax_left l _) (ih _)

theorem setLenFold_mem (bs : List Bench) :
    ∀ (l : length) (v : Bench), v ∈ bs → length.le (benchLen v) (setLenFold l bs) := by
  induction bs with
  | nil => intro l v hv; simp at hv
  | cons w rest ih =>
    intro l v hv
    have hstep : setLenFold l (w :: rest) = setLenFold (lmax l (benchLen w)) rest := rfl
    rw [hstep]
    rcases List.mem_cons.mp hv with h | h
    · subst h
      exact lle_trans (le_lmax_right l _) (setLenFold_ge rest _)
    · exact ih _ v h

theorem setLenFold_absorb (bs : List Bench) :
    ∀ (l : length), (∀ v ∈ bs, length.le (benchLen v) l) → setLenFold l bs = l := by
  induction bs with
  | nil => intro l _; rfl
  | cons w rest ih =>
    intro l h
    have hstep : setLenFold l (w :: rest) = setLenFold (lmax l (benchLen w)) rest := rfl
    rw [hstep, lmax_absorb (h w (List.mem_cons_self _ _))]
    exact ih l (fun v hv => h v (List.mem_cons_of_mem _ hv))

theorem fixText_ge (hl x : Nat) : x ≤ fixText hl x := by
  unfold fixText
  split <;> omega

theorem fixText_idem (hl x : Nat) : fixText hl (fixText hl x) = fixText hl x := by
  unfold fixText
  split_ifs <;> omega

theorem hdrFix_ge (h : header) (l : length) : length.le l (hdrFix h l) := by
  unfold length.le hdrFix
  exact ⟨fixText_ge _ _, fixText_ge _ _, fixText_ge _ _, fixText_ge _ _,
    Nat.le_max_left _ _, Nat.le_max_left _ _, Nat.le_max_left _ _, Nat.le_max_left _ _,
    fixText_ge _ _⟩

theorem hdrFix_idem (h : header) (l : length) : hdrFix h (hdrFix h l) = hdrFix h l := by
  unfold hdrFix
  ext <;> dsimp
  · exact fixText_idem _ _
  · exact fixText_idem _ _
  · exact fixText_idem _ _
  · exact fixText_idem _ _
  · rw [Nat.max_assoc, Nat.max_self]
  · rw [Nat.max_assoc, Nat.max_self]
  · rw [Nat.max_assoc, Nat.max_self]
  · rw [Nat.max_assoc, Nat.max_self]
  · exact fixText_idem _ _

theorem setLength_header (b : Benches) : (b.setLength).header = b.header := rfl

theorem setLength_includeOpsColumnDesc (b : Benches) :
    (b.setLength).includeOpsColumnDesc = b.includeOpsColumnDesc := rfl

theorem setLength_length (b : Benches) :
    (b.setLength).length
      = hdrFix b.header (descBump b.includeOpsColumnDesc (setLenFold b.length b.Benchmarks)) := rfl

/-- C3 counterexample: with `includeOpsColumnDesc` enabled, running
`setLength` a second time on the same renderer state yields a different
(larger) ns/op column width than the first run, because the suffix bump
is added again. -/
theorem c3_counterexample :
    bC3.includeOpsColumnDesc = true
    ∧ (bC3.setLength.setLength).length.NsOp ≠ (bC3.setLength).length.NsOp := by
  decide

/-- C3 (amended): the width computation is idempotent — a second
`setLength` run on the resulting state changes nothing — whenever
`includeOpsColumnDesc` is disabled; with the flag enabled each run adds
the suffix lengths again. -/
theorem c3_setLength_idempotent_without_descriptors (b : Benches)
    (hflag : b.includeOpsColumnDesc = false) :
    b.setLength.setLength = b.setLength := by
  ext1
  case Name => rfl
  case Desc => rfl
  case Note => rfl
  case Benchmarks => rfl
  case header => rfl
  case columnPadding => rfl
  case includeOpsColumnDesc => rfl
  case includeSystemInfo => rfl
  case includeDetailedSystemInfo => rfl
  case sectionPerGroup => rfl
  case sectionHeaders => rfl
  case nameSections => rfl
  case length =>
    rw [setLength_length b.setLength, setLength_header, setLength_includeOpsColumnDesc,
      setLength_Benchmarks, setLength_length b, hflag]
    simp only [descBump, Bool.false_eq_true, if_false]
    have habs : setLenFold (hdrFix b.header (setLenFold b.length b.Benchmarks)) b.Benchmarks
        = hdrFix b.header (setLenFold b.length b.Benchmarks) :=
      setLenFold_absorb _ _ (fun v hv =>
        lle_trans (setLenFold_mem b.Benchmarks b.length v hv) (hdrFix_ge _ _))
    rw [habs, hdrFix_idem]

/-- Witness for C3 (amended): idempotence at a concrete state with the
descriptor flag off. -/
theorem c3_witness : bW3.setLength.setLength = bW3.setLength :=
  c3_setLength_idempotent_without_descriptors bW3 rfl

theorem wrap64_eq_self {x : Int} (h1 : -(2 ^ 63) ≤ x) (h2 : x < 2 ^ 63) : wrap64 x = x := by
  unfold wrap64
  have h3 : 0 ≤ x + 2 ^ 63 := by omega
  have h4 : x + 2 ^ 63 < 2 ^ 64 := by omega
  rw [Int.emod_eq_of_lt h3 h4]
  omega

/-- C7: the displayed operations cell renders exactly
`result.operations * iterations` (suffixed when descriptors are on),
while each of the three per-op cells is produced by `perOpsString`, which
divides the stored value by iterations and never multiplies. -/
theorem c7_ops_times_iterations_perop_divided (b : Benches) (v : Bench) (x it : Int)
    (h1 : -(2 ^ 63) ≤ v.result.Ops * v.Iterations) (h2 : v.result.Ops * v.Iterations < 2 ^ 63)
    (hx : x ≠ 0) (hit : it ≠ 0) :
    b.OpsString v = (if b.includeOpsColumnDesc then
        intRepr (v.result.Ops * v.Iterations) ++ " ops".data
      else intRepr (v.result.Ops * v.Iterations))
    ∧ b.NsOpString v = Option.map
        (fun s => if b.includeOpsColumnDesc then s ++ " ns/op".data else s)
        (b.perOpsString v.result.NsOp v.Iterations)
    ∧ b.BytesOpString v = Option.map
        (fun s => if b.includeOpsColumnDesc then s ++ " bytes/op".data else s)
        (b.perOpsString v.result.BytesOp v.Iterations)
    ∧ b.AllocsOpString v = Option.map
        (fun s => if b.includeOpsColumnDesc then s ++ " allocs/op".data else s)
        (b.perOpsString v.result.AllocsOp v.Iterations)
    ∧ b.perOpsString x it = some (intRepr (wrap64 (x.tdiv it))) := by
  refine ⟨?_, ?_, ?_, ?_, ?_⟩
  · unfold Benches.OpsString
    rw [wrap64_eq_self h1 h2]
  · unfold Benches.NsOpString
    cases b.perOpsString v.result.NsOp v.Iterations <;> rfl
  · unfold Benches.BytesOpString
    cases b.perOpsString v.result.BytesOp v.Iterations <;> rfl
  · unfold Benches.AllocsOpString
    cases b.perOpsString v.result.AllocsOp v.Iterations <;> rfl
  · unfold Benches.perOpsString
    rw [if_neg hx, if_neg hit]

/-- Witness for C7: 1000 operations at 4 iterations display as 4000, at a
default configuration (descriptors off). -/
theorem c7_witness :
    bEmpty.OpsString benchC2 = (if bEmpty.includeOpsColumnDesc then
        intRepr (benchC2.result.Ops * benchC2.Iterations) ++ " ops".data
      else intRepr (benchC2.result.Ops * benchC2.Iterations))
    ∧ bEmpty.NsOpString benchC2 = Option.map
        (fun s => if bEmpty.includeOpsColumnDesc then s ++ " ns/op".data else s)
        (bEmpty.perOpsString benchC2.result.NsOp benchC2.Iterations)
    ∧ bEmpty.BytesOpString benchC2 = Option.map
        (fun s => if bEmpty.includeOpsColumnDesc then s ++ " bytes/op".data else s)
        (bEmpty.perOpsString benchC2.result.BytesOp benchC2.Iterations)
    ∧ bEmpty.AllocsOpString benchC2 = Option.map
        (fun s => if bEmpty.includeOpsColumnDesc then s ++ " allocs/op".data else s)
        (bEmpty.perOpsString benchC2.result.AllocsOp benchC2.Iterations)
    ∧ bEmpty.perOpsString 500 4 = some (intRepr (wrap64 (Int.tdiv 500 4))) :=
  c7_ops_times_iterations_perop_divided bEmpty benchC2 500 4 (by decide) (by decide)
    (by decide) (by decide)

/-- C8: for iterations at least one, a per-op cell renders the literal
`0` exactly when the stored value is zero, and otherwise the truncated
quotient value / iterations; the bytes cell additionally carries the
suffix exactly when descriptors are enabled. -/
theorem c8_perop_zero_and_quotient (b : Benches) (v : Bench) (x it : Int)
    (hit : 1 ≤ it) (hx : x ≠ 0) (hby : v.result.BytesOp = 0) :
    b.perOpsString 0 it = some ("0".data)
    ∧ b.perOpsString x it = some (intRepr (wrap64 (x.tdiv it)))
    ∧ b.BytesOpString v = some (if b.includeOpsColumnDesc then "0 bytes/op".data else "0".data) := by
  have hit0 : it ≠ 0 := by omega
  refine ⟨?_, ?_, ?_⟩
  · unfold Benches.perOpsString
    rw [if_pos rfl]
  · unfold Benches.perOpsString
    rw [if_neg hx, if_neg hit0]
  · unfold Benches.BytesOpString Benches.perOpsString
    rw [hby, if_pos rfl]
    cases b.includeOpsColumnDesc <;> rfl

/-- Witness for C8: a record with bytes-per-op stored as zero and 4
iterations renders the bytes cell as the literal `0`. -/
theorem c8_witness :
    bEmpty.perOpsString 0 4 = some ("0".data)
    ∧ bEmpty.perOpsString 500 4 = some (intRepr (wrap64 (Int.tdiv 500 4)))
    ∧ bEmpty.BytesOpString benchC8
        = some (if bEmpty.includeOpsColumnDesc then "0 bytes/op".data else "0".data) :=
  c8_perop_zero_and_quotient bEmpty benchC8 500 4 (by decide) (by decide) rfl

/-- C10: with iterations at least one the per-op rendering never faults;
with iterations zero and a nonzero stored value it reaches the unguarded
division by zero (modelled as `none`); `NewBench` is the only place the
default of one iteration is set, and `Append` adds records with no
validation. -/
theorem c10_perop_division_guard (b bApp : Benches) (x y it : Int) (s : Str)
    (vs : List Bench) (hit : 1 ≤ it) (hy : y ≠ 0) :
    (b.perOpsString x it).isSome = true
    ∧ b.perOpsString y 0 = none
    ∧ (NewBench s).Iterations = 1
    ∧ (Benches.Append bApp vs).Benchmarks = bApp.Benchmarks ++ vs := by
  have hit0 : it ≠ 0 := by omega
  refine ⟨?_, ?_, rfl, rfl⟩
  · unfold Benches.perOpsString
    by_cases hx0 : x = 0
    · rw [if_pos hx0]
      rfl
    · rw [if_neg hx0, if_neg hit0]
      rfl
  · unfold Benches.perOpsString
    rw [if_neg hy, if_pos rfl]

/-- Witness for C10 at concrete values: iterations 4 never faults,
iterations 0 with stored value 7 faults, `NewBench` defaults to one
iteration, `Append` appends. -/
theorem c10_witness :
    (bEmpty.perOpsString 500 4).isSome = true
    ∧ bEmpty.perOpsString 7 0 = none
    ∧ (NewBench ("n".data)).Iterations = 1
    ∧ (Benches.Append bEmpty [benchA]).Benchmarks = bEmpty.Benchmarks ++ [benchA] :=
  c10_perop_division_guard bEmpty bEmpty 500 7 4 ("n".data) [benchA] (by decide) (by decide)
